import Mathlib

/-!
Verification development for the SpatialGDK receiver subsystem and the
local-deployment manager of this repository.

The deployment-manager definitions are shallow embeddings of
`Source/SpatialGDKServices/Private/LocalDeploymentManager.cpp`.  The receiver
definitions embed the data structures declared in
`Source/Public/Interop/SpatialReceiver.h`; behaviour whose implementation file
is not part of this excerpt is modelled from the specification, as marked in
each doc comment.

External side effects (process execution, sleeping, logging, delegate
broadcasts) are represented as explicit effect traces, and the results of
external processes are passed in as parameters, so that every operation is a
pure function of its inputs.
-/

namespace SpatialGDK

/-! ## Local deployment manager (`LocalDeploymentManager.cpp`) -/

/-- Observable side effects of the deployment manager: a `Sleep` call,
running the `spot` executable, or running the `spatial` executable.
Log statements are not traced; they have no effect on state. -/
inductive DMEffect where
  | sleep : DMEffect
  | execSpot (args : String) : DMEffect
  | execSpatial (args : String) : DMEffect
  | broadcastOnDeploymentStart : DMEffect
deriving DecidableEq, Repr

/-- State fields of `FLocalDeploymentManager` that the embedded operations
read or write (from the constructor initialiser list and the field usage in
`LocalDeploymentManager.cpp`). -/
structure DeploymentManager where
  bLocalDeploymentRunning : Bool
  bSpatialServiceRunning : Bool
  bSpatialServiceInProjectDirectory : Bool
  bStartingDeployment : Bool
  bStoppingDeployment : Bool
  bStartingSpatialService : Bool
  bStoppingSpatialService : Bool
  bRedeployRequired : Bool
  localRunningDeploymentID : String
  exposedRuntimeIP : String
deriving DecidableEq, Repr

/-- Outcome of one external `spot`/`spatial` process invocation, as the
code observes it: exit code, whether the JSON parsed, whether a `content`
object was present, the `status` string field if any, the `id` field, and
whether the raw output contains `RUNNING` (used by `TryStartSpatialService`). -/
structure ProcOutcome where
  exitCode : Int
  parseOk : Bool
  hasContent : Bool
  status : Option String
  idField : String
  containsRunning : Bool
deriving DecidableEq, Repr

/-- `FLocalDeploymentManager::TryStopLocalDeployment` (lines 255-315).
If no deployment is running or the running-deployment id is empty, it logs and
returns `false` with no other action.  Otherwise it sets
`bStoppingDeployment`, runs `spot alpha deployment delete`, clears
`bStoppingDeployment`, and on a parsed `STOPPED` status clears the
deployment id and running flag and returns `true`. -/
def tryStopLocalDeployment (s : DeploymentManager) (res : ProcOutcome) :
    DeploymentManager × Bool × List DMEffect :=
  if !s.bLocalDeploymentRunning || s.localRunningDeploymentID = "" then
    (s, false, [])
  else
    let effs := [DMEffect.execSpot ("alpha deployment delete --id=" ++
      s.localRunningDeploymentID ++ " --json")]
    -- bStoppingDeployment is set to true before the process runs and back to
    -- false immediately after; both branches below observe it as false.
    if res.parseOk && res.hasContent && res.status = some "STOPPED" then
      ({ s with bStoppingDeployment := false,
                localRunningDeploymentID := "",
                bLocalDeploymentRunning := false }, true, effs)
    else
      ({ s with bStoppingDeployment := false }, false, effs)

/-- `FLocalDeploymentManager::TryStartSpatialService` (lines 317-367). -/
def tryStartSpatialService (s : DeploymentManager) (runtimeIP : String)
    (res : ProcOutcome) : DeploymentManager × Bool × List DMEffect :=
  if s.bSpatialServiceRunning then
    (s, false, [])
  else if s.bStartingSpatialService then
    (s, false, [])
  else
    let args := "service start --version=20190910.165122.cb2c30cb51" ++
      (if runtimeIP = "" then "" else " --runtime_ip=" ++ runtimeIP)
    let effs := [DMEffect.execSpatial args]
    if res.exitCode ≠ 0 then
      ({ s with bStartingSpatialService := false }, false, effs)
    else if res.containsRunning then
      ({ s with bStartingSpatialService := false,
                exposedRuntimeIP := runtimeIP,
                bSpatialServiceRunning := true }, true, effs)
    else
      ({ s with bStartingSpatialService := false,
                bSpatialServiceRunning := false,
                bLocalDeploymentRunning := false }, false, effs)

/-- `FLocalDeploymentManager::TryStopSpatialService` (lines 369-399). -/
def tryStopSpatialService (s : DeploymentManager) (res : ProcOutcome) :
    DeploymentManager × Bool × List DMEffect :=
  if s.bStoppingSpatialService then
    (s, false, [])
  else
    let effs := [DMEffect.execSpatial "service stop"]
    if res.exitCode = 0 then
      ({ s with bStoppingSpatialService := false,
                bSpatialServiceRunning := false,
                bSpatialServiceInProjectDirectory := true,
                bLocalDeploymentRunning := false }, true, effs)
    else
      ({ s with bStoppingSpatialService := false }, false, effs)

/-- Effects of the `while (bStoppingDeployment) Sleep(0.1f)` loop at the top
of `TryStartLocalDeployment` (lines 154-161): one `sleep` per loop iteration,
where `waitIters` is the number of extra iterations before a concurrent stop
clears the flag.  The loop runs at least once whenever the flag is set on
entry, and not at all otherwise. -/
def startWaitLoopEffects (s : DeploymentManager) (waitIters : Nat) : List DMEffect :=
  if s.bStoppingDeployment then List.replicate (waitIters + 1) DMEffect.sleep else []

/-- Lines 173-178 of `TryStartLocalDeployment`: restart the spatial service
when the exposed runtime IP changed (the returned success flag is discarded). -/
def startStepRestartService (s : DeploymentManager) (runtimeIP : String)
    (res : ProcOutcome) : DeploymentManager × List DMEffect :=
  if s.exposedRuntimeIP ≠ runtimeIP then
    ((tryStopSpatialService s res).1, (tryStopSpatialService s res).2.2)
  else (s, [])

/-- Lines 180-190 of `TryStartLocalDeployment`: start the spatial service if
it is not running (the returned success flag is discarded). -/
def startStepEnsureService (s : DeploymentManager) (runtimeIP : String)
    (res : ProcOutcome) : DeploymentManager × List DMEffect :=
  if !s.bSpatialServiceRunning then
    ((tryStartSpatialService s runtimeIP res).1,
      (tryStartSpatialService s runtimeIP res).2.2)
  else (s, [])

/-- `FLocalDeploymentManager::TryStartLocalDeployment` (lines 150-253).

The function first clears `bRedeployRequired`, then runs the sleep loop of
`startWaitLoopEffects` while a previous deployment is stopping.  It bails out
if a deployment is already running, otherwise restarts or starts the spatial
service as needed, runs `spot alpha deployment create`, and interprets the
JSON result. -/
def tryStartLocalDeployment (s : DeploymentManager) (waitIters : Nat)
    (runtimeIP : String) (svcStopRes svcStartRes createRes : ProcOutcome) :
    DeploymentManager × Bool × List DMEffect :=
  let s0 : DeploymentManager := { s with bRedeployRequired := false }
  let sleepEffs : List DMEffect := startWaitLoopEffects s0 waitIters
  let s1 : DeploymentManager :=
    if s0.bStoppingDeployment then { s0 with bStoppingDeployment := false } else s0
  if s1.bLocalDeploymentRunning then
    (s1, false, sleepEffs)
  else
    let s2 : DeploymentManager :=
      { s1 with localRunningDeploymentID := "", bStartingDeployment := true }
    let stepA := startStepRestartService s2 runtimeIP svcStopRes
    let stepB := startStepEnsureService stepA.1 runtimeIP svcStartRes
    let createEff := DMEffect.execSpot "alpha deployment create"
    let effs := sleepEffs ++ stepA.2 ++ stepB.2 ++ [createEff]
    let s3 : DeploymentManager := { stepB.1 with bStartingDeployment := false }
    if createRes.exitCode ≠ 0 then
      (s3, false, effs)
    else if createRes.parseOk && createRes.hasContent &&
        createRes.status = some "RUNNING" then
      ({ s3 with localRunningDeploymentID := createRes.idField,
                 bLocalDeploymentRunning := true }, true,
        effs ++ [DMEffect.broadcastOnDeploymentStart])
    else
      (s3, false, effs)

/-- Count of `Sleep` calls in an effect trace. -/
def sleepCount (effs : List DMEffect) : Nat :=
  effs.countP (fun e => e = DMEffect.sleep)

theorem sleepCount_append (a b : List DMEffect) :
    sleepCount (a ++ b) = sleepCount a + sleepCount b :=
  List.countP_append _ _ _

theorem sleepCount_replicate_sleep (n : Nat) :
    sleepCount (List.replicate n DMEffect.sleep) = n := by
  unfold sleepCount
  induction n with
  | zero => rfl
  | succ n ih =>
    rw [List.replicate_succ, List.countP_cons]
    simp [ih]

theorem sleepCount_tryStopSpatialService (s : DeploymentManager) (r : ProcOutcome) :
    sleepCount (tryStopSpatialService s r).2.2 = 0 := by
  unfold tryStopSpatialService
  repeat' split
  all_goals rfl

theorem sleepCount_tryStartSpatialService (s : DeploymentManager) (ip : String)
    (r : ProcOutcome) :
    sleepCount (tryStartSpatialService s ip r).2.2 = 0 := by
  unfold tryStartSpatialService
  repeat' split
  all_goals rfl

theorem sleepCount_tryStopLocalDeployment (s : DeploymentManager) (r : ProcOutcome) :
    sleepCount (tryStopLocalDeployment s r).2.2 = 0 := by
  unfold tryStopLocalDeployment
  split
  · rfl
  · split <;> rfl

theorem sleepCount_startStepRestartService (s : DeploymentManager) (ip : String)
    (r : ProcOutcome) : sleepCount (startStepRestartService s ip r).2 = 0 := by
  unfold startStepRestartService
  split
  · exact sleepCount_tryStopSpatialService s r
  · rfl

theorem sleepCount_startStepEnsureService (s : DeploymentManager) (ip : String)
    (r : ProcOutcome) : sleepCount (startStepEnsureService s ip r).2 = 0 := by
  unfold startStepEnsureService
  split
  · exact sleepCount_tryStartSpatialService s ip r
  · rfl

theorem sleepCount_nil : sleepCount [] = 0 := rfl

theorem sleepCount_execSpot (a : String) : sleepCount [DMEffect.execSpot a] = 0 := rfl

theorem sleepCount_broadcast :
    sleepCount [DMEffect.broadcastOnDeploymentStart] = 0 := rfl

theorem sleepCount_cons_execSpot (a : String) (l : List DMEffect) :
    sleepCount (DMEffect.execSpot a :: l) = sleepCount l := by
  simp [sleepCount, List.countP_cons]

theorem sleepCount_cons_broadcast (l : List DMEffect) :
    sleepCount (DMEffect.broadcastOnDeploymentStart :: l) = sleepCount l := by
  simp [sleepCount, List.countP_cons]

theorem sleepCount_startWaitLoopEffects (s : DeploymentManager) (w : Nat) :
    sleepCount (startWaitLoopEffects s w) =
      if s.bStoppingDeployment then w + 1 else 0 := by
  unfold startWaitLoopEffects
  by_cases h : s.bStoppingDeployment <;>
    simp [h, sleepCount_replicate_sleep, sleepCount_nil]

theorem sleepCount_tryStartLocalDeployment (s : DeploymentManager) (w : Nat)
    (ip : String) (r1 r2 r3 : ProcOutcome) :
    sleepCount (tryStartLocalDeployment s w ip r1 r2 r3).2.2 =
      if s.bStoppingDeployment then w + 1 else 0 := by
  unfold tryStartLocalDeployment
  dsimp only
  repeat' split
  all_goals
    simp_all [sleepCount_append, sleepCount_startStepRestartService,
      sleepCount_startStepEnsureService, sleepCount_startWaitLoopEffects,
      sleepCount_nil, sleepCount_execSpot, sleepCount_broadcast,
      sleepCount_cons_execSpot, sleepCount_cons_broadcast]

/-- C9 counterexample: the claim that no operation ever enters a sleep/wait
loop is false.  With `bStoppingDeployment` set (and a deployment already
running, so that every other branch is skipped), `TryStartLocalDeployment`
executes the loop `while (bStoppingDeployment) { FPlatformProcess::Sleep(0.1f); }`
(lines 157-160) and its effect trace contains a `Sleep` call. -/
theorem tryStartLocalDeployment_sleeps_counterexample :
    sleepCount (tryStartLocalDeployment
      ⟨true, false, false, false, true, false, false, false, "d1", ""⟩ 0 ""
      ⟨0, true, true, none, "", false⟩ ⟨0, true, true, none, "", false⟩
      ⟨0, true, true, none, "", false⟩).2.2 = 1 := by rfl

/-- C9 (amended): no operation of the deployment manager other than
`TryStartLocalDeployment` ever sleeps, and `TryStartLocalDeployment` blocks in
a sleep loop exactly when `bStoppingDeployment` is set on entry — it then
performs `waitIters + 1` `Sleep` calls (at least one), where `waitIters` is the
number of loop iterations before a concurrent stop clears the flag. -/
theorem deploymentManager_blocking_characterization
    (s : DeploymentManager) (w : Nat) (ip : String)
    (r1 r2 r3 r4 : ProcOutcome) :
    sleepCount (tryStartLocalDeployment s w ip r1 r2 r3).2.2 =
      (if s.bStoppingDeployment then w + 1 else 0) ∧
    sleepCount (tryStopLocalDeployment s r4).2.2 = 0 ∧
    sleepCount (tryStartSpatialService s ip r1).2.2 = 0 ∧
    sleepCount (tryStopSpatialService s r1).2.2 = 0 :=
  ⟨sleepCount_tryStartLocalDeployment s w ip r1 r2 r3,
    sleepCount_tryStopLocalDeployment s r4,
    sleepCount_tryStartSpatialService s ip r1,
    sleepCount_tryStopSpatialService s r1⟩

/-- C10: when no local deployment is running, or the running-deployment id is
empty, `TryStopLocalDeployment` returns `false` without executing any external
process and without changing any state field (lines 257-261). -/
theorem tryStopLocalDeployment_noActiveDeployment_noop
    (s : DeploymentManager) (r : ProcOutcome)
    (h : s.bLocalDeploymentRunning = false ∨ s.localRunningDeploymentID = "") :
    tryStopLocalDeployment s r = (s, false, []) := by
  unfold tryStopLocalDeployment
  rcases h with h | h <;> simp [h]

/-- C10 witness: a concrete manager state with no running deployment. -/
theorem tryStopLocalDeployment_noActiveDeployment_noop_witness :
    ((⟨false, true, true, false, false, false, false, false, "d7", ""⟩ :
        DeploymentManager).bLocalDeploymentRunning = false ∨
      (⟨false, true, true, false, false, false, false, false, "d7", ""⟩ :
        DeploymentManager).localRunningDeploymentID = "") ∧
    tryStopLocalDeployment
      ⟨false, true, true, false, false, false, false, false, "d7", ""⟩
      ⟨0, true, true, some "STOPPED", "", false⟩ =
      (⟨false, true, true, false, false, false, false, false, "d7", ""⟩, false, []) :=
  ⟨Or.inl rfl,
    tryStopLocalDeployment_noActiveDeployment_noop
      ⟨false, true, true, false, false, false, false, false, "d7", ""⟩
      ⟨0, true, true, some "STOPPED", "", false⟩ (Or.inl rfl)⟩

/-! ## Incoming RPC queue (spec §4.4, `IncomingRPCMap` of `SpatialReceiver.h`)

The implementation file of `USpatialReceiver` is not part of this excerpt;
the queue operations are modelled from the specification (§4.4) over the data
shapes declared in `SpatialReceiver.h` (`FPendingIncomingRPC`,
`IncomingRPCMap : TMap<FUnrealObjectRef, FIncomingRPCArray>`). -/

/-- Identity of a remote object: entity id plus intra-entity offset
(`FUnrealObjectRef`; equality and hashing by the pair). -/
abbrev ObjectRef := Nat × Nat

/-- Modelled from the spec: a `FPendingIncomingRPC` (SpatialReceiver.h lines
82-92) as the queue observes it: whether the weak `TargetObject` handle still
resolves, the invocation descriptor (`Function`), and the set of `ObjectRef`s
the arguments still depend on.  The payload bytes and bit count carry no
control flow and are elided. -/
structure PendingRPC where
  targetAlive : Bool
  func : Nat
  remaining : Finset ObjectRef
deriving DecidableEq

/-- Modelled from the spec: the queue state.  `store` is the pool of pending
invocations by internal id (each id stands for one shared
`TSharedPtr<FPendingIncomingRPC>` record), `index` is `IncomingRPCMap` mapping
each unresolved ref to the ids stored under it (an absent key is the empty
list), and `dispatched`/`dropped` are append-only logs of the invocations
applied against a live target resp. dropped because the target was destroyed. -/
@[ext]
structure RpcQueue where
  store : Nat → Option PendingRPC
  index : ObjectRef → List Nat
  dispatched : List Nat
  dropped : List Nat
  nextId : Nat

def emptyQueue : RpcQueue := ⟨fun _ => none, fun _ => [], [], [], 0⟩

/-- Modelled from the spec §4.4 `enqueue` (`QueueIncomingRPC`): store a
pending invocation keyed by every ref in its unresolved set; one invocation
may be indexed under several keys. -/
def enqueueRPC (refs : Finset ObjectRef) (alive : Bool) (f : Nat)
    (q : RpcQueue) : RpcQueue where
  store := fun i => if i = q.nextId then some ⟨alive, f, refs⟩ else q.store i
  index := fun r => if r ∈ refs then q.index r ++ [q.nextId] else q.index r
  dispatched := q.dispatched
  dropped := q.dropped
  nextId := q.nextId + 1

/-- Modelled from the spec §4.4 `onResolved`, per indexed invocation: remove
the resolved ref from the remaining set; when the set becomes empty, dispatch
against the target if its weak handle still resolves, otherwise drop and log;
a dispatched or dropped invocation is destroyed. -/
def resolveRPCStep (r : ObjectRef) (q : RpcQueue) (id : Nat) : RpcQueue :=
  match q.store id with
  | none => q
  | some rpc =>
    let rem := rpc.remaining.erase r
    if rem = ∅ then
      if rpc.targetAlive then
        { q with store := fun i => if i = id then none else q.store i
                 dispatched := q.dispatched ++ [id] }
      else
        { q with store := fun i => if i = id then none else q.store i
                 dropped := q.dropped ++ [id] }
    else
      { q with store := fun i =>
          if i = id then some { rpc with remaining := rem } else q.store i }

/-- Modelled from the spec §4.4 `onResolved` (`ResolveIncomingRPCs`): process
every invocation indexed under the resolved ref in FIFO order, then remove the
ref's entry from the map. -/
def resolveIncomingRPCs (r : ObjectRef) (q : RpcQueue) : RpcQueue :=
  let q' := (q.index r).foldl (resolveRPCStep r) q
  { q' with index := fun s => if s = r then [] else q'.index s }

/-- Queue holding exactly one pending invocation `id`, with remaining
reference set `T` and a live target, indexed under every ref of `T`. -/
def singleRpcQueue (T : Finset ObjectRef) (f : Nat) (d e : List Nat)
    (id n : Nat) : RpcQueue where
  store := fun i => if i = id then some ⟨true, f, T⟩ else none
  index := fun r => if r ∈ T then [id] else []
  dispatched := d
  dropped := e
  nextId := n

theorem resolveRPCStep_of_store (r : ObjectRef) (q : RpcQueue) (id : Nat)
    (rpc : PendingRPC) (hs : q.store id = some rpc) :
    resolveRPCStep r q id =
      if rpc.remaining.erase r = ∅ then
        if rpc.targetAlive then
          { q with store := fun i => if i = id then none else q.store i
                   dispatched := q.dispatched ++ [id] }
        else
          { q with store := fun i => if i = id then none else q.store i
                   dropped := q.dropped ++ [id] }
      else
        { q with store := fun i =>
            if i = id then some { rpc with remaining := rpc.remaining.erase r }
            else q.store i } := by
  unfold resolveRPCStep
  rw [hs]

theorem resolveIncomingRPCs_single_last
    (T : Finset ObjectRef) (f : Nat) (d e : List Nat) (id n : Nat)
    (r : ObjectRef) (hr : r ∈ T) (h : T.erase r = ∅) :
    resolveIncomingRPCs r (singleRpcQueue T f d e id n) =
      ⟨fun _ => none, fun _ => [], d ++ [id], e, n⟩ := by
  have hT : T = {r} := by
    rcases (Finset.erase_eq_empty_iff T r).mp h with h' | h'
    · exact absurd (h' ▸ hr) (Finset.not_mem_empty r)
    · exact h'
  subst hT
  have hidx : (singleRpcQueue {r} f d e id n).index r = [id] := by
    simp [singleRpcQueue]
  have hs : (singleRpcQueue {r} f d e id n).store id =
      some ⟨true, f, {r}⟩ := by
    simp [singleRpcQueue]
  unfold resolveIncomingRPCs
  rw [hidx, List.foldl_cons, List.foldl_nil,
    resolveRPCStep_of_store r _ id _ hs]
  rw [if_pos h, if_pos (show (true : Bool) = true from rfl)]
  refine RpcQueue.ext ?_ ?_ rfl rfl rfl
  · funext i
    by_cases hi : i = id <;> simp [singleRpcQueue, hi]
  · funext s
    by_cases hsr : s = r <;> simp [singleRpcQueue, hsr]

theorem resolveIncomingRPCs_single_mid
    (T : Finset ObjectRef) (f : Nat) (d e : List Nat) (id n : Nat)
    (r : ObjectRef) (hr : r ∈ T) (h : T.erase r ≠ ∅) :
    resolveIncomingRPCs r (singleRpcQueue T f d e id n) =
      singleRpcQueue (T.erase r) f d e id n := by
  have hidx : (singleRpcQueue T f d e id n).index r = [id] := by
    simp [singleRpcQueue, hr]
  have hs : (singleRpcQueue T f d e id n).store id =
      some ⟨true, f, T⟩ := by
    simp [singleRpcQueue]
  unfold resolveIncomingRPCs
  rw [hidx, List.foldl_cons, List.foldl_nil,
    resolveRPCStep_of_store r _ id _ hs]
  rw [if_neg h]
  refine RpcQueue.ext ?_ ?_ rfl rfl rfl
  · funext i
    by_cases hi : i = id <;> simp [singleRpcQueue, hi]
  · funext s
    by_cases hsr : s = r
    · simp [singleRpcQueue, hsr]
    · simp [singleRpcQueue, hsr, Finset.mem_erase]

theorem resolve_all_single (L : List ObjectRef) :
    ∀ (T : Finset ObjectRef) (f : Nat) (d e : List Nat) (id n : Nat),
    L.Nodup → L ≠ [] → L.toFinset = T →
    L.foldl (fun q r => resolveIncomingRPCs r q) (singleRpcQueue T f d e id n) =
      ⟨fun _ => none, fun _ => [], d ++ [id], e, n⟩ := by
  induction L with
  | nil => intro T f d e id n _ hne _; exact absurd rfl hne
  | cons r L ih =>
    intro T f d e id n hnd hne hT
    have hrL : r ∉ L := (List.nodup_cons.mp hnd).1
    have hrT : r ∈ T := by
      rw [← hT]; simp
    have hLT : L.toFinset = T.erase r := by
      rw [← hT, List.toFinset_cons, Finset.erase_insert]
      simpa using hrL
    rw [List.foldl_cons]
    by_cases hL : L = []
    · subst hL
      have hTe : T.erase r = ∅ := by
        rw [← hLT]; rfl
      rw [resolveIncomingRPCs_single_last T f d e id n r hrT hTe]
      rfl
    · have hTe : T.erase r ≠ ∅ := by
        rw [← hLT]
        intro hc
        exact hL (List.toFinset_eq_empty_iff L |>.mp hc)
      rw [resolveIncomingRPCs_single_mid T f d e id n r hrT hTe]
      exact ih (T.erase r) f d e id n (List.nodup_cons.mp hnd).2 hL hLT

/-- C1: a pending incoming RPC indexed under several ObjectRefs is dispatched
exactly once after the last of its references resolves, whatever order the
individual references resolve in: enqueue an invocation depending on the set
`S` (with at least two refs), resolve the refs of `S` in any order `L` (each
exactly once); the dispatch log then holds the invocation exactly once. -/
theorem pendingIncomingRPC_dispatched_exactly_once
    (S : Finset ObjectRef) (f : Nat) (L : List ObjectRef)
    (hcard : 2 ≤ S.card) (hnd : L.Nodup) (hcov : L.toFinset = S) :
    (L.foldl (fun q r => resolveIncomingRPCs r q)
        (enqueueRPC S true f emptyQueue)).dispatched = [0] := by
  have hini : enqueueRPC S true f emptyQueue = singleRpcQueue S f [] [] 0 1 := by
    refine RpcQueue.ext ?_ ?_ rfl rfl rfl
    · funext i
      by_cases hi : i = 0 <;> simp [enqueueRPC, emptyQueue, singleRpcQueue, hi]
    · funext r
      by_cases hr : r ∈ S <;> simp [enqueueRPC, emptyQueue, singleRpcQueue, hr]
  have hne : L ≠ [] := by
    intro hc
    subst hc
    rw [show ([] : List ObjectRef).toFinset = ∅ from rfl] at hcov
    rw [← hcov] at hcard
    simp at hcard
  rw [hini, resolve_all_single L S f [] [] 0 1 hnd hne hcov]
  rfl

/-- C1 witness: two refs resolved in reverse order dispatch the invocation
exactly once. -/
theorem pendingIncomingRPC_dispatched_exactly_once_witness :
    2 ≤ ({(1, 0), (2, 0)} : Finset ObjectRef).card ∧
    ([(2, 0), (1, 0)] : List ObjectRef).Nodup ∧
    ([(2, 0), (1, 0)] : List ObjectRef).toFinset =
      ({(1, 0), (2, 0)} : Finset ObjectRef) ∧
    (([(2, 0), (1, 0)] : List ObjectRef).foldl
        (fun q r => resolveIncomingRPCs r q)
        (enqueueRPC {(1, 0), (2, 0)} true 7 emptyQueue)).dispatched = [0] :=
  ⟨by decide, by decide, by decide,
    pendingIncomingRPC_dispatched_exactly_once {(1, 0), (2, 0)} 7
      [(2, 0), (1, 0)] (by decide) (by decide) (by decide)⟩

/-- Value of one invocation record after `onResolved` of `r` touches it:
`none` (destroyed) when the last remaining ref was `r`, otherwise the record
with `r` erased from its remaining set. -/
def entryAfter (r : ObjectRef) : Option PendingRPC → Option PendingRPC
  | none => none
  | some rpc =>
    if rpc.remaining.erase r = ∅ then none
    else some { rpc with remaining := rpc.remaining.erase r }

/-- Whether `onResolved` of `r` dispatches this record: last ref removed and
the weak target handle still resolves. -/
def entryDispatches (r : ObjectRef) : Option PendingRPC → Bool
  | none => false
  | some rpc => decide (rpc.remaining.erase r = ∅) && rpc.targetAlive

/-- Whether `onResolved` of `r` drops this record: last ref removed but the
target was destroyed. -/
def entryDrops (r : ObjectRef) : Option PendingRPC → Bool
  | none => false
  | some rpc => decide (rpc.remaining.erase r = ∅) && !rpc.targetAlive

theorem resolveRPCStep_store_ne (r : ObjectRef) (q : RpcQueue) (a i : Nat)
    (h : i ≠ a) : (resolveRPCStep r q a).store i = q.store i := by
  unfold resolveRPCStep
  cases hs : q.store a with
  | none => rfl
  | some rpc =>
    by_cases he : rpc.remaining.erase r = ∅ <;>
      [skip; simp [he, h]]
    by_cases ha : rpc.targetAlive <;> simp [he, ha, h]

theorem resolveRPCStep_store_self (r : ObjectRef) (q : RpcQueue) (a : Nat) :
    (resolveRPCStep r q a).store a = entryAfter r (q.store a) := by
  unfold resolveRPCStep entryAfter
  cases hs : q.store a with
  | none => exact hs
  | some rpc =>
    by_cases he : rpc.remaining.erase r = ∅ <;>
      [skip; simp [he]]
    by_cases ha : rpc.targetAlive <;> simp [he, ha]

theorem resolveRPCStep_index (r : ObjectRef) (q : RpcQueue) (a : Nat) :
    (resolveRPCStep r q a).index = q.index := by
  unfold resolveRPCStep
  cases hs : q.store a with
  | none => rfl
  | some rpc =>
    by_cases he : rpc.remaining.erase r = ∅ <;>
      [skip; simp [he]]
    by_cases ha : rpc.targetAlive <;> simp [he, ha]

theorem resolveRPCStep_nextId (r : ObjectRef) (q : RpcQueue) (a : Nat) :
    (resolveRPCStep r q a).nextId = q.nextId := by
  unfold resolveRPCStep
  cases hs : q.store a with
  | none => rfl
  | some rpc =>
    by_cases he : rpc.remaining.erase r = ∅ <;>
      [skip; simp [he]]
    by_cases ha : rpc.targetAlive <;> simp [he, ha]

theorem resolveRPCStep_dispatched (r : ObjectRef) (q : RpcQueue) (a : Nat) :
    (resolveRPCStep r q a).dispatched =
      q.dispatched ++ (if entryDispatches r (q.store a) then [a] else []) := by
  unfold resolveRPCStep entryDispatches
  cases hs : q.store a with
  | none => simp
  | some rpc =>
    by_cases he : rpc.remaining.erase r = ∅ <;>
      [skip; simp [he]]
    by_cases ha : rpc.targetAlive <;> simp [he, ha]

theorem resolveRPCStep_dropped (r : ObjectRef) (q : RpcQueue) (a : Nat) :
    (resolveRPCStep r q a).dropped =
      q.dropped ++ (if entryDrops r (q.store a) then [a] else []) := by
  unfold resolveRPCStep entryDrops
  cases hs : q.store a with
  | none => simp
  | some rpc =>
    by_cases he : rpc.remaining.erase r = ∅ <;>
      [skip; simp [he]]
    by_cases ha : rpc.targetAlive <;> simp [he, ha]

theorem foldl_resolveRPCStep_char (r : ObjectRef) (ids : List Nat) :
    ∀ q : RpcQueue, ids.Nodup →
    ids.foldl (resolveRPCStep r) q =
      { store := fun i => if i ∈ ids then entryAfter r (q.store i) else q.store i
        index := q.index
        dispatched := q.dispatched ++
          ids.filter (fun i => entryDispatches r (q.store i))
        dropped := q.dropped ++ ids.filter (fun i => entryDrops r (q.store i))
        nextId := q.nextId } := by
  induction ids with
  | nil =>
    intro q _
    refine RpcQueue.ext ?_ rfl ?_ ?_ rfl
    · funext i
      simp
    · simp
    · simp
  | cons a ids ih =>
    intro q hnd
    have ha : a ∉ ids := (List.nodup_cons.mp hnd).1
    rw [List.foldl_cons, ih (resolveRPCStep r q a) (List.nodup_cons.mp hnd).2]
    refine RpcQueue.ext ?_ ?_ ?_ ?_ ?_
    · funext i
      by_cases hmem : i ∈ ids
      · have hne : i ≠ a := fun hc => ha (hc ▸ hmem)
        simp [hmem, resolveRPCStep_store_ne r q a i hne]
      · by_cases hia : i = a
        · subst hia
          simp [hmem, resolveRPCStep_store_self]
        · simp [hmem, hia, resolveRPCStep_store_ne r q a i hia]
    · rw [resolveRPCStep_index]
    · have hfilt : List.filter
          (fun i => entryDispatches r ((resolveRPCStep r q a).store i)) ids =
          List.filter (fun i => entryDispatches r (q.store i)) ids :=
        List.filter_congr (fun i hi => by
          rw [resolveRPCStep_store_ne r q a i (fun hc => ha (hc ▸ hi))])
      rw [resolveRPCStep_dispatched, hfilt, List.filter_cons]
      by_cases hd : entryDispatches r (q.store a) <;> simp [hd]
    · have hfilt : List.filter
          (fun i => entryDrops r ((resolveRPCStep r q a).store i)) ids =
          List.filter (fun i => entryDrops r (q.store i)) ids :=
        List.filter_congr (fun i hi => by
          rw [resolveRPCStep_store_ne r q a i (fun hc => ha (hc ▸ hi))])
      rw [resolveRPCStep_dropped, hfilt, List.filter_cons]
      by_cases hd : entryDrops r (q.store a) <;> simp [hd]
    · rw [resolveRPCStep_nextId]

theorem resolveIncomingRPCs_char (r : ObjectRef) (q : RpcQueue)
    (hnd : (q.index r).Nodup) :
    resolveIncomingRPCs r q =
      { store := fun i => if i ∈ q.index r then entryAfter r (q.store i)
          else q.store i
        index := fun s => if s = r then [] else q.index s
        dispatched := q.dispatched ++
          (q.index r).filter (fun i => entryDispatches r (q.store i))
        dropped := q.dropped ++
          (q.index r).filter (fun i => entryDrops r (q.store i))
        nextId := q.nextId } := by
  unfold resolveIncomingRPCs
  rw [foldl_resolveRPCStep_char r (q.index r) q hnd]

/-- C8: when the remaining-reference set of a pending incoming RPC becomes
empty but the weak handle to its target no longer resolves, the invocation is
dropped (logged in `dropped`), never dispatched, and destroyed so that no later
resolution re-dispatches it; the drop affects no other pending invocation (each
other record is transformed exactly as the resolution alone dictates) and no
map entry other than the resolved ref's own index entry. -/
theorem deadTargetRPC_dropped_no_sideEffects
    (q : RpcQueue) (r : ObjectRef) (id : Nat) (rpc : PendingRPC)
    (hnd : ∀ s, (q.index s).Nodup)
    (hid : id ∈ q.index r)
    (hs : q.store id = some rpc)
    (hlast : rpc.remaining.erase r = ∅)
    (hdead : rpc.targetAlive = false)
    (hnotyet : id ∉ q.dispatched) :
    (resolveIncomingRPCs r q).store id = none ∧
    id ∈ (resolveIncomingRPCs r q).dropped ∧
    id ∉ (resolveIncomingRPCs r q).dispatched ∧
    (∀ j, j ≠ id → (resolveIncomingRPCs r q).store j =
      (if j ∈ q.index r then entryAfter r (q.store j) else q.store j)) ∧
    (∀ s, (resolveIncomingRPCs r q).index s =
      (if s = r then [] else q.index s)) ∧
    (∀ s, id ∉ (resolveIncomingRPCs s (resolveIncomingRPCs r q)).dispatched) := by
  have hchar := resolveIncomingRPCs_char r q (hnd r)
  have hstore_id : (resolveIncomingRPCs r q).store id = none := by
    rw [hchar]
    simp [hid, entryAfter, hs, hlast]
  have hdisp : id ∉ (resolveIncomingRPCs r q).dispatched := by
    rw [hchar]
    intro hmem
    rcases List.mem_append.mp hmem with hmem | hmem
    · exact hnotyet hmem
    · have := (List.mem_filter.mp hmem).2
      rw [hs] at this
      simp [entryDispatches, hlast, hdead] at this
  refine ⟨hstore_id, ?_, hdisp, ?_, ?_, ?_⟩
  · rw [hchar]
    refine List.mem_append.mpr (Or.inr (List.mem_filter.mpr ⟨hid, ?_⟩))
    rw [hs]
    simp [entryDrops, hlast, hdead]
  · intro j _
    rw [hchar]
  · intro s
    rw [hchar]
  · intro s
    have hnd1 : ((resolveIncomingRPCs r q).index s).Nodup := by
      rw [hchar]
      by_cases hsr : s = r <;> simp [hsr, hnd s]
    have hchar1 := resolveIncomingRPCs_char s (resolveIncomingRPCs r q) hnd1
    rw [hchar1]
    intro hmem
    rcases List.mem_append.mp hmem with hmem | hmem
    · exact hdisp hmem
    · have := (List.mem_filter.mp hmem).2
      rw [hstore_id, entryDispatches] at this
      simp at this

/-- C8 witness: a single-ref invocation whose target is already destroyed. -/
theorem deadTargetRPC_dropped_no_sideEffects_witness :
    (∀ s, ((enqueueRPC {(1, 0)} false 3 emptyQueue).index s).Nodup) ∧
    (0 : Nat) ∈ (enqueueRPC {(1, 0)} false 3 emptyQueue).index (1, 0) ∧
    (enqueueRPC {(1, 0)} false 3 emptyQueue).store 0 =
      some ⟨false, 3, {(1, 0)}⟩ ∧
    (resolveIncomingRPCs (1, 0)
      (enqueueRPC {(1, 0)} false 3 emptyQueue)).store 0 = none ∧
    (0 : Nat) ∈ (resolveIncomingRPCs (1, 0)
      (enqueueRPC {(1, 0)} false 3 emptyQueue)).dropped ∧
    (0 : Nat) ∉ (resolveIncomingRPCs (1, 0)
      (enqueueRPC {(1, 0)} false 3 emptyQueue)).dispatched := by
  have hnd : ∀ s, ((enqueueRPC {(1, 0)} false 3 emptyQueue).index s).Nodup := by
    intro s
    by_cases hv : s = ((1, 0) : ObjectRef) <;>
      simp [enqueueRPC, emptyQueue, hv]
  have hmain := deadTargetRPC_dropped_no_sideEffects
    (enqueueRPC {(1, 0)} false 3 emptyQueue) (1, 0) 0 ⟨false, 3, {(1, 0)}⟩
    hnd (by decide) (by decide) (by decide) rfl (by decide)
  exact ⟨hnd, by decide, by decide, hmain.1, hmain.2.1, hmain.2.2.1⟩

/-! ## Request/response correlation (spec §4.5, `PendingActorRequests` /
`PopPendingActorRequest` / `OnCreateEntityResponse` of `SpatialReceiver.h`) -/

/-- Modelled from the spec: one correlation domain as a map from request id to
the registered continuation (the implementation file of `USpatialReceiver` is
absent from this excerpt).  A continuation is abstracted to a tag; an absent
key is `none`. -/
def CorrelationTable : Type := Nat → Option Nat

/-- Modelled from the spec / `AddPendingActorRequest`: register a continuation
under a request id. -/
def addRequest (id k : Nat) (t : CorrelationTable) : CorrelationTable :=
  fun i => if i = id then some k else t i

/-- Modelled from the spec / `PopPendingActorRequest`: look up and remove the
continuation for a request id; `none` when no continuation is registered. -/
def popPendingActorRequest (t : CorrelationTable) (id : Nat) :
    Option Nat × CorrelationTable :=
  match t id with
  | none => (none, t)
  | some k => (some k, fun i => if i = id then none else t i)

/-- Modelled from the spec §4.5 `onResponse` / `OnCreateEntityResponse`: pop
the continuation for the request id and invoke it with the response; when no
continuation is registered the response is dropped (logged) and nothing is
invoked.  The invocation list holds the (continuation, response) calls made. -/
def onCreateEntityResponse (t : CorrelationTable) (id resp : Nat) :
    CorrelationTable × List (Nat × Nat) :=
  match popPendingActorRequest t id with
  | (none, t') => (t', [])
  | (some k, t') => (t', [(k, resp)])

/-- C6: a response for an unknown request id is a total no-op (nothing is
invoked and the table is unchanged), and a continuation consumed by one
response is never invoked again by a duplicate response with the same id,
because the lookup removes the entry. -/
theorem correlation_unknown_noop_and_no_double_invoke
    (t : CorrelationTable) (id k resp resp' : Nat) :
    (t id = none → onCreateEntityResponse t id resp = (t, [])) ∧
    (t id = some k →
      (onCreateEntityResponse t id resp).2 = [(k, resp)] ∧
      (onCreateEntityResponse t id resp).1 id = none ∧
      onCreateEntityResponse (onCreateEntityResponse t id resp).1 id resp' =
        ((onCreateEntityResponse t id resp).1, [])) := by
  constructor
  · intro h
    unfold onCreateEntityResponse popPendingActorRequest
    rw [h]
  · intro h
    unfold onCreateEntityResponse popPendingActorRequest
    rw [h]
    refine ⟨rfl, by simp, ?_⟩
    simp

/-- C6 witness: a concrete table holding continuation 3 under request id 5;
an unknown id 9 is a no-op, and a duplicate response for id 5 invokes
nothing. -/
theorem correlation_unknown_noop_and_no_double_invoke_witness :
    ((fun i => if i = 5 then some 3 else none) : CorrelationTable) 9 = none ∧
    ((fun i => if i = 5 then some 3 else none) : CorrelationTable) 5 = some 3 ∧
    onCreateEntityResponse
      (fun i => if i = 5 then some 3 else none) 9 11 =
      ((fun i => if i = 5 then some 3 else none), []) ∧
    (onCreateEntityResponse (fun i => if i = 5 then some 3 else none) 5 11).2 =
      [(3, 11)] ∧
    onCreateEntityResponse
      (onCreateEntityResponse (fun i => if i = 5 then some 3 else none) 5 11).1
      5 12 =
      ((onCreateEntityResponse
        (fun i => if i = 5 then some 3 else none) 5 11).1, []) :=
  ⟨rfl, rfl,
    (correlation_unknown_noop_and_no_double_invoke
      (fun i => if i = 5 then some 3 else none) 9 3 11 12).1 rfl,
    ((correlation_unknown_noop_and_no_double_invoke
      (fun i => if i = 5 then some 3 else none) 5 3 11 12).2 rfl).1,
    ((correlation_unknown_noop_and_no_double_invoke
      (fun i => if i = 5 then some 3 else none) 5 3 11 12).2 rfl).2.2⟩

/-! ## `FObjectReferences` (SpatialReceiver.h lines 44-80) -/

/-- The `FObjectReferences` struct.  C++ scalar members that a constructor
leaves uninitialised (`bSingleProp`, `NumBufferBits`, `ParentIndex`,
`Property` under the defaulted constructor) are modelled as `Option` values,
`none` standing for an indeterminate value; the `TUniquePtr` `Array` member is
`none` when null.  `UProperty*` is abstracted to an opaque id. -/
inductive FObjectReferences where
  | mk (unresolvedRefs : List ObjectRef) (bSingleProp : Option Bool)
      (buffer : List Nat) (numBufferBits : Option Int)
      (arr : Option (List (Int × FObjectReferences)))
      (parentIndex : Option Int) (property : Option Nat)

def FObjectReferences.bSingleProp : FObjectReferences → Option Bool
  | .mk _ b _ _ _ _ _ => b

def FObjectReferences.arr :
    FObjectReferences → Option (List (Int × FObjectReferences))
  | .mk _ _ _ _ a _ _ => a

def FObjectReferences.unresolvedRefs : FObjectReferences → List ObjectRef
  | .mk u _ _ _ _ _ _ => u

/-- `FObjectReferences() = default` (line 46): all containers empty, the
unique pointer null, every scalar member uninitialised. -/
def FObjectReferences.defaulted : FObjectReferences :=
  .mk [] none [] none none none none

/-- Single-property constructor (lines 56-61): adds the one unresolved ref and
sets `bSingleProp = true`; `NumBufferBits` stays uninitialised, `Array` null. -/
def FObjectReferences.singleProp (ref : ObjectRef) (parentIndex : Int)
    (property : Nat) : FObjectReferences :=
  .mk [ref] (some true) [] none none (some parentIndex) (some property)

/-- Struct (memory stream) constructor (lines 63-65): stores the byte buffer,
bit length and unresolved-ref set, with `bSingleProp = false` and `Array`
null. -/
def FObjectReferences.structStream (buffer : List Nat) (numBufferBits : Int)
    (refs : List ObjectRef) (parentIndex : Int) (property : Nat) :
    FObjectReferences :=
  .mk refs (some false) buffer (some numBufferBits) none (some parentIndex)
    (some property)

/-- Array constructor (lines 67-69): stores the nested per-element map, with
`bSingleProp = false`; `NumBufferBits` stays uninitialised. -/
def FObjectReferences.arrayMap (m : List (Int × FObjectReferences))
    (parentIndex : Int) (property : Nat) : FObjectReferences :=
  .mk [] (some false) [] none (some m) (some parentIndex) (some property)

/-- Shape predicate of spec §3(a): a single outstanding reference tied to one
field (`bSingleProp` determinately true). -/
def FObjectReferences.isSingleShape (o : FObjectReferences) : Bool :=
  o.bSingleProp == some true

/-- Shape predicate of spec §3(c): nested per-element-index mapping (the
`Array` unique pointer is non-null). -/
def FObjectReferences.isArrayShape (o : FObjectReferences) : Bool :=
  !o.arr.isNone

/-- Shape predicate of spec §3(b): serialized byte buffer with bit-length and
unresolved-ref set (`bSingleProp` determinately false and `Array` null). -/
def FObjectReferences.isStructShape (o : FObjectReferences) : Bool :=
  (o.bSingleProp == some false) && o.arr.isNone

/-- Number of the three shapes active on an instance. -/
def FObjectReferences.activeShapeCount (o : FObjectReferences) : Nat :=
  (if o.isSingleShape then 1 else 0) + (if o.isStructShape then 1 else 0) +
    (if o.isArrayShape then 1 else 0)

/-- C5 counterexample: the claim that every `FObjectReferences` instance has
exactly one active shape is false for the defaulted constructor
`FObjectReferences() = default` (line 46, used e.g. when a `TMap` slot is
default-constructed): the defaulted instance has `Array` null, no buffer and
an indeterminate `bSingleProp`, so none of the three shapes is active. -/
theorem objectReferences_defaulted_no_shape :
    FObjectReferences.defaulted.activeShapeCount = 0 ∧
    FObjectReferences.defaulted.activeShapeCount ≠ 1 :=
  ⟨rfl, by decide⟩

/-- C5 (amended): every instance built by one of the three shape constructors
(single-property, struct stream, array) has exactly one active shape, the one
its constructor determines, and the shape is fixed by the constructor's field
assignments; only the defaulted constructor yields an instance with no active
shape. -/
theorem objectReferences_constructor_shapes
    (ref : ObjectRef) (pi : Int) (p : Nat) (buffer : List Nat)
    (bits : Int) (refs : List ObjectRef)
    (m : List (Int × FObjectReferences)) :
    (FObjectReferences.singleProp ref pi p).activeShapeCount = 1 ∧
    (FObjectReferences.singleProp ref pi p).isSingleShape = true ∧
    (FObjectReferences.structStream buffer bits refs pi p).activeShapeCount = 1 ∧
    (FObjectReferences.structStream buffer bits refs pi p).isStructShape = true ∧
    (FObjectReferences.arrayMap m pi p).activeShapeCount = 1 ∧
    (FObjectReferences.arrayMap m pi p).isArrayShape = true :=
  ⟨rfl, rfl, rfl, rfl, rfl, rfl⟩

/-! ## Deferred startup actors (`USpatialStreamingLevelManager`, spec §4.2)

The manager's fields are declared in SpatialReceiver.h lines 101-130:
`LoadedLevels : TSet<FName>` ("the loaded streaming levels we've already
reacted to"), `DeferredStartupActorData : TMultiMap<FName,
FDeferredStartupActorData>`, and the `CreateDeferredStartupActor` delegate.
The behaviour of `DeferStartupActorForLevel` and `HandleLevelAdded` is
modelled from spec §4.2. -/

abbrev LevelName := Nat
abbrev EntityId := Nat

/-- Modelled from the spec: state of `USpatialStreamingLevelManager`.  The
deferred actor data is abstracted to its entity id; `constructed` logs every
invocation of the `CreateDeferredStartupActor` delegate (each invocation
constructs the deferred entity). -/
structure LevelManager where
  loadedLevels : List LevelName
  deferredStartupActorData : List (LevelName × EntityId)
  constructed : List EntityId

/-- Modelled from the spec: `DeferStartupActorForLevel` parks the record keyed
by its level path; nothing is constructed. -/
def deferStartupActorForLevel (lvl : LevelName) (e : EntityId)
    (m : LevelManager) : LevelManager :=
  { m with deferredStartupActorData := m.deferredStartupActorData ++ [(lvl, e)] }

/-- Modelled from the spec: `HandleLevelAdded` on a container-ready signal.
A level already reacted to is ignored; otherwise the level is recorded as
loaded, every record parked under it is constructed (delegate invoked), and
those records are removed from the multimap. -/
def handleLevelAdded (lvl : LevelName) (m : LevelManager) : LevelManager :=
  if lvl ∈ m.loadedLevels then m
  else
    { loadedLevels := m.loadedLevels ++ [lvl]
      deferredStartupActorData :=
        m.deferredStartupActorData.filter (fun d => d.1 ≠ lvl)
      constructed := m.constructed ++
        (m.deferredStartupActorData.filter (fun d => d.1 = lvl)).map (·.2) }

/-- Invariant carried while the container of a deferred entity stays unloaded:
its level is not yet reacted to, exactly one record for the entity is parked
(under that level), and the entity was never constructed. -/
def DeferredPending (lvl : LevelName) (e : EntityId) (m : LevelManager) : Prop :=
  lvl ∉ m.loadedLevels ∧
  m.deferredStartupActorData.count (lvl, e) = 1 ∧
  (∀ l, l ≠ lvl → (l, e) ∉ m.deferredStartupActorData) ∧
  e ∉ m.constructed

theorem deferredPending_init (lvl : LevelName) (e : EntityId) (m : LevelManager)
    (h1 : lvl ∉ m.loadedLevels)
    (h2 : ∀ l, (l, e) ∉ m.deferredStartupActorData)
    (h3 : e ∉ m.constructed) :
    DeferredPending lvl e (deferStartupActorForLevel lvl e m) := by
  refine ⟨h1, ?_, ?_, h3⟩
  · unfold deferStartupActorForLevel
    rw [List.count_append, List.count_eq_zero.mpr (h2 lvl)]
    simp
  · intro l hl hmem
    unfold deferStartupActorForLevel at hmem
    rcases List.mem_append.mp hmem with hmem | hmem
    · exact h2 l hmem
    · simp at hmem
      exact hl hmem

theorem deferredPending_step (lvl : LevelName) (e : EntityId) (m : LevelManager)
    (l : LevelName) (hl : l ≠ lvl) (hp : DeferredPending lvl e m) :
    DeferredPending lvl e (handleLevelAdded l m) := by
  obtain ⟨h1, h2, h3, h4⟩ := hp
  unfold handleLevelAdded
  by_cases hmem : l ∈ m.loadedLevels
  · rw [if_pos hmem]
    exact ⟨h1, h2, h3, h4⟩
  · rw [if_neg hmem]
    refine ⟨?_, ?_, ?_, ?_⟩
    · intro hc
      rcases List.mem_append.mp hc with hc | hc
      · exact h1 hc
      · simp at hc
        exact hl hc.symm
    · have hls : lvl ≠ l := Ne.symm hl
      rw [List.count_eq_countP, List.countP_filter]
      have hcongr : List.countP
          (fun a => a == (lvl, e) && decide (a.1 ≠ l))
          m.deferredStartupActorData =
          List.countP (fun a => a == (lvl, e)) m.deferredStartupActorData :=
        List.countP_congr (fun d _ => by
          constructor
          · intro hd
            exact ((Bool.and_eq_true ..).mp hd).1
          · intro hd
            have hde : d = (lvl, e) := eq_of_beq hd
            subst hde
            simp [hls])
      rw [hcongr, ← List.count_eq_countP]
      exact h2
    · intro l' hl' hmemf
      exact h3 l' hl' (List.mem_of_mem_filter hmemf)
    · intro hc
      rcases List.mem_append.mp hc with hc | hc
      · exact h4 hc
      · rcases List.mem_map.mp hc with ⟨d, hdf, hde⟩
        have hd1 : d.1 = l := by
          have := (List.mem_filter.mp hdf).2
          simpa using this
        have : d = (l, e) := by
          cases d
          simp_all
        exact h3 l hl (this ▸ List.mem_of_mem_filter hdf)

theorem deferredPending_fold (ls : List LevelName) :
    ∀ (m : LevelManager) (lvl : LevelName) (e : EntityId),
    lvl ∉ ls → DeferredPending lvl e m →
    DeferredPending lvl e (ls.foldl (fun t l => handleLevelAdded l t) m) := by
  induction ls with
  | nil =>
    intro m lvl e _ hp
    exact hp
  | cons l ls ih =>
    intro m lvl e hnin hp
    rw [List.foldl_cons]
    have hl : l ≠ lvl := by
      intro hc
      refine hnin ?_
      rw [← hc]
      exact List.mem_cons_self l ls
    exact ih _ lvl e (fun hc => hnin (List.mem_cons_of_mem l hc))
      (deferredPending_step lvl e m l hl hp)

theorem count_map_snd_filter (lvl : LevelName) (e : EntityId)
    (data : List (LevelName × EntityId)) :
    ((data.filter (fun d => d.1 = lvl)).map (·.2)).count e = data.count (lvl, e) := by
  induction data with
  | nil => rfl
  | cons d data ih =>
    rcases d with ⟨l', e'⟩
    rw [List.filter_cons]
    by_cases h1 : l' = lvl
    · subst h1
      by_cases h2 : e' = e
      · subst h2
        simp [List.count_cons, ih]
      · simp [List.count_cons, ih, h2, Prod.ext_iff]
    · simp [List.count_cons, ih, h1, Prod.ext_iff]

theorem handleLevelAdded_mem_noop (lvl : LevelName) (m : LevelManager)
    (h : lvl ∈ m.loadedLevels) : handleLevelAdded lvl m = m := by
  unfold handleLevelAdded
  rw [if_pos h]

theorem handleLevelAdded_constructs (lvl : LevelName) (e : EntityId)
    (m : LevelManager) (hp : DeferredPending lvl e m) :
    (handleLevelAdded lvl m).constructed.count e = 1 ∧
    handleLevelAdded lvl (handleLevelAdded lvl m) = handleLevelAdded lvl m := by
  obtain ⟨h1, h2, h3, h4⟩ := hp
  have hguard : handleLevelAdded lvl m =
      { loadedLevels := m.loadedLevels ++ [lvl]
        deferredStartupActorData :=
          m.deferredStartupActorData.filter (fun d => d.1 ≠ lvl)
        constructed := m.constructed ++
          (m.deferredStartupActorData.filter (fun d => d.1 = lvl)).map (·.2) } := by
    unfold handleLevelAdded
    rw [if_neg h1]
  constructor
  · rw [hguard]
    show (m.constructed ++
      ((m.deferredStartupActorData.filter (fun d => d.1 = lvl)).map (·.2))).count e = 1
    rw [List.count_append, List.count_eq_zero.mpr h4,
      count_map_snd_filter lvl e m.deferredStartupActorData, h2]
  · refine handleLevelAdded_mem_noop lvl _ ?_
    rw [hguard]
    exact List.mem_append.mpr (Or.inr (List.mem_singleton.mpr rfl))

/-- C7: an entity deferred because its streaming container is not yet loaded
is not constructed by any container-ready signal for other containers; the
ready signal for its own container constructs it exactly once; and observing
the same container's ready signal again constructs nothing further (the
second signal is a no-op).  `ls` is an arbitrary interleaving of ready
signals for other containers. -/
theorem deferredEntity_constructed_exactly_once
    (m : LevelManager) (lvl : LevelName) (e : EntityId) (ls : List LevelName)
    (h1 : lvl ∉ m.loadedLevels)
    (h2 : ∀ l, (l, e) ∉ m.deferredStartupActorData)
    (h3 : e ∉ m.constructed)
    (h4 : lvl ∉ ls) :
    ((ls.foldl (fun t l => handleLevelAdded l t)
        (deferStartupActorForLevel lvl e m)).constructed.count e = 0) ∧
    ((handleLevelAdded lvl (ls.foldl (fun t l => handleLevelAdded l t)
        (deferStartupActorForLevel lvl e m))).constructed.count e = 1) ∧
    (handleLevelAdded lvl (handleLevelAdded lvl
        (ls.foldl (fun t l => handleLevelAdded l t)
          (deferStartupActorForLevel lvl e m))) =
      handleLevelAdded lvl (ls.foldl (fun t l => handleLevelAdded l t)
        (deferStartupActorForLevel lvl e m))) := by
  have hp : DeferredPending lvl e
      (ls.foldl (fun t l => handleLevelAdded l t)
        (deferStartupActorForLevel lvl e m)) :=
    deferredPending_fold ls _ lvl e h4 (deferredPending_init lvl e m h1 h2 h3)
  have hfin := handleLevelAdded_constructs lvl e _ hp
  exact ⟨List.count_eq_zero.mpr hp.2.2.2, hfin.1, hfin.2⟩

/-- C7 witness: entity 5 deferred on container 1; a ready signal for the
unrelated container 2 constructs nothing, the signal for container 1
constructs it once, and a repeated signal is a no-op. -/
theorem deferredEntity_constructed_exactly_once_witness :
    ((1 : LevelName) ∉ (⟨[], [], []⟩ : LevelManager).loadedLevels) ∧
    (∀ l, (l, (5 : EntityId)) ∉
      (⟨[], [], []⟩ : LevelManager).deferredStartupActorData) ∧
    ((5 : EntityId) ∉ (⟨[], [], []⟩ : LevelManager).constructed) ∧
    ((1 : LevelName) ∉ ([2] : List LevelName)) ∧
    (([2].foldl (fun t l => handleLevelAdded l t)
        (deferStartupActorForLevel 1 5 ⟨[], [], []⟩)).constructed.count 5 = 0) ∧
    ((handleLevelAdded 1 ([2].foldl (fun t l => handleLevelAdded l t)
        (deferStartupActorForLevel 1 5 ⟨[], [], []⟩))).constructed.count 5 = 1) ∧
    (handleLevelAdded 1 (handleLevelAdded 1
        ([2].foldl (fun t l => handleLevelAdded l t)
          (deferStartupActorForLevel 1 5 ⟨[], [], []⟩))) =
      handleLevelAdded 1 ([2].foldl (fun t l => handleLevelAdded l t)
        (deferStartupActorForLevel 1 5 ⟨[], [], []⟩))) := by
  have hmain := deferredEntity_constructed_exactly_once ⟨[], [], []⟩ 1 5 [2]
    (List.not_mem_nil 1) (fun l => List.not_mem_nil (l, 5))
    (List.not_mem_nil 5) (by decide)
  exact ⟨List.not_mem_nil 1, fun l => List.not_mem_nil (l, 5),
    List.not_mem_nil 5, by decide, hmain.1, hmain.2.1, hmain.2.2⟩

/-! ## Critical-section batching (spec §4.1, the `bInCriticalSection` /
`PendingAddEntities` / `PendingAuthorityChanges` / `PendingAddComponents` /
`PendingRemoveEntities` fields of `SpatialReceiver.h` lines 293-297)

Behaviour of `OnCriticalSection` / `EnterCriticalSection` /
`LeaveCriticalSection` and of `ReceiveActor` / `RemoveActor` is modelled from
spec §4.1: inside a section operations are buffered; leaving drains removals
first, then additions, then authority changes. -/

/-- Modelled from the spec: receiver state for the batching protocol.  `live`
is the local object graph: one `(entity, generation)` entry per constructed
local object, generations allocated from `nextGen` so that "freshly
constructed" is observable.  `authLog` records processed authority changes. -/
structure CSReceiver where
  bInCriticalSection : Bool
  pendingAddEntities : List EntityId
  pendingAuthorityChanges : List (EntityId × Nat)
  pendingAddComponents : List (EntityId × Nat)
  pendingRemoveEntities : List EntityId
  live : List (EntityId × Nat)
  nextGen : Nat
  authLog : List (EntityId × Nat)

/-- Modelled from the spec: `RemoveActor` destroys the local object(s) of the
entity. -/
def removeActor (x : EntityId) (s : CSReceiver) : CSReceiver :=
  { s with live := s.live.filter (fun o => o.1 ≠ x) }

/-- Modelled from the spec: `ReceiveActor` constructs a local object for an
entity that does not have one yet (an entity already represented is observed
once, so a duplicate add is a no-op). -/
def receiveActor (x : EntityId) (s : CSReceiver) : CSReceiver :=
  if s.live.any (fun o => o.1 = x) then s
  else { s with live := s.live ++ [(x, s.nextGen)], nextGen := s.nextGen + 1 }

/-- Modelled from the spec: processing one authority change. -/
def handleActorAuthority (op : EntityId × Nat) (s : CSReceiver) : CSReceiver :=
  { s with authLog := s.authLog ++ [op] }

/-- Modelled from the spec: `OnAddEntity` buffers inside a section, processes
immediately outside. -/
def onAddEntity (x : EntityId) (s : CSReceiver) : CSReceiver :=
  if s.bInCriticalSection then
    { s with pendingAddEntities := s.pendingAddEntities ++ [x] }
  else receiveActor x s

/-- Modelled from the spec: `OnRemoveEntity` buffers inside a section,
processes immediately outside. -/
def onRemoveEntity (x : EntityId) (s : CSReceiver) : CSReceiver :=
  if s.bInCriticalSection then
    { s with pendingRemoveEntities := s.pendingRemoveEntities ++ [x] }
  else removeActor x s

/-- Modelled from the spec: `EnterCriticalSection`; a nested enter is a no-op
continuation of the outer section. -/
def enterCriticalSection (s : CSReceiver) : CSReceiver :=
  { s with bInCriticalSection := true }

/-- Modelled from the spec: `LeaveCriticalSection` drains the buffers in the
fixed order — removals first, then additions, then authority changes — and
clears them. -/
def leaveCriticalSection (s : CSReceiver) : CSReceiver :=
  let s1 := s.pendingRemoveEntities.foldl (fun t x => removeActor x t) s
  let s2 := s1.pendingAddEntities.foldl (fun t x => receiveActor x t) s1
  let s3 := s2.pendingAuthorityChanges.foldl
    (fun t op => handleActorAuthority op t) s2
  { s3 with bInCriticalSection := false
            pendingAddEntities := []
            pendingAuthorityChanges := []
            pendingAddComponents := []
            pendingRemoveEntities := [] }

/-- Count of live local objects for entity `x`. -/
def liveCount (x : EntityId) (s : CSReceiver) : Nat :=
  s.live.countP (fun o => o.1 = x)

theorem liveCount_removeActor_self (x : EntityId) (s : CSReceiver) :
    liveCount x (removeActor x s) = 0 := by
  unfold liveCount removeActor
  rw [List.countP_filter, List.countP_eq_zero]
  intro a _
  by_cases h : a.1 = x <;> simp [h]

theorem liveCount_removeActor_zero (x y : EntityId) (s : CSReceiver)
    (h : liveCount x s = 0) : liveCount x (removeActor y s) = 0 := by
  unfold liveCount removeActor
  rw [List.countP_filter, List.countP_eq_zero]
  unfold liveCount at h
  rw [List.countP_eq_zero] at h
  intro a ha
  have := h a ha
  simp at this ⊢
  intro hc
  exact absurd hc this

theorem foldl_removeActor_liveCount_zero (l : List EntityId) :
    ∀ (x : EntityId) (s : CSReceiver), liveCount x s = 0 →
    liveCount x (l.foldl (fun t y => removeActor y t) s) = 0 := by
  induction l with
  | nil => intro x s h; exact h
  | cons y l ih =>
    intro x s h
    rw [List.foldl_cons]
    exact ih x _ (liveCount_removeActor_zero x y s h)

theorem foldl_removeActor_mem (l : List EntityId) :
    ∀ (x : EntityId) (s : CSReceiver), x ∈ l →
    liveCount x (l.foldl (fun t y => removeActor y t) s) = 0 := by
  induction l with
  | nil => intro x s h; exact absurd h (List.not_mem_nil x)
  | cons y l ih =>
    intro x s h
    rw [List.foldl_cons]
    by_cases hxy : x = y
    · subst hxy
      exact foldl_removeActor_liveCount_zero l x _
        (liveCount_removeActor_self x s)
    · exact ih x _ ((List.mem_cons.mp h).resolve_left hxy)

theorem foldl_removeActor_fields (l : List EntityId) :
    ∀ s : CSReceiver,
    (l.foldl (fun t y => removeActor y t) s).pendingAddEntities =
      s.pendingAddEntities ∧
    (l.foldl (fun t y => removeActor y t) s).pendingAuthorityChanges =
      s.pendingAuthorityChanges ∧
    (l.foldl (fun t y => removeActor y t) s).nextGen = s.nextGen := by
  induction l with
  | nil => intro s; exact ⟨rfl, rfl, rfl⟩
  | cons y l ih =>
    intro s
    rw [List.foldl_cons]
    exact ih (removeActor y s)

/-- State in which entity `x` has no local object yet and every future
generation is at least `n0`. -/
def NotYet (x : EntityId) (n0 : Nat) (t : CSReceiver) : Prop :=
  liveCount x t = 0 ∧ n0 ≤ t.nextGen

/-- State in which entity `x` has exactly one local object, constructed with a
generation of at least `n0` (i.e. freshly, after the point where `nextGen` was
`n0`). -/
def AddedFresh (x : EntityId) (n0 : Nat) (t : CSReceiver) : Prop :=
  liveCount x t = 1 ∧ ∀ o ∈ t.live, o.1 = x → n0 ≤ o.2

theorem liveCount_zero_iff_not_any (x : EntityId) (s : CSReceiver) :
    liveCount x s = 0 ↔ s.live.any (fun o => o.1 = x) = false := by
  unfold liveCount
  rw [List.countP_eq_zero]
  constructor
  · intro h
    rw [Bool.eq_false_iff]
    intro hc
    rcases List.any_eq_true.mp hc with ⟨a, ha, hpa⟩
    exact h a ha (by simpa using hpa)
  · intro h a ha hpa
    have hc : s.live.any (fun o => o.1 = x) = true :=
      List.any_eq_true.mpr ⟨a, ha, by simpa using hpa⟩
    rw [h] at hc
    exact Bool.false_ne_true hc

theorem receiveActor_self_fresh (x : EntityId) (n0 : Nat) (t : CSReceiver)
    (h : NotYet x n0 t) : AddedFresh x n0 (receiveActor x t) := by
  obtain ⟨h0, hn⟩ := h
  unfold receiveActor
  rw [(liveCount_zero_iff_not_any x t).mp h0]
  rw [if_neg Bool.false_ne_true]
  constructor
  · unfold liveCount at h0 ⊢
    rw [List.countP_append, h0]
    simp
  · intro o ho hox
    rcases List.mem_append.mp ho with ho | ho
    · unfold liveCount at h0
      rw [List.countP_eq_zero] at h0
      exact absurd (by simpa using hox) (h0 o ho)
    · have : o = (x, t.nextGen) := by simpa using ho
      rw [this]
      exact hn

theorem receiveActor_preserves_notYet (x : EntityId) (n0 : Nat)
    (y : EntityId) (t : CSReceiver) (hyx : y ≠ x) (h : NotYet x n0 t) :
    NotYet x n0 (receiveActor y t) := by
  obtain ⟨h0, hn⟩ := h
  unfold receiveActor
  by_cases hany : t.live.any (fun o => o.1 = y) = true
  · rw [if_pos hany]
    exact ⟨h0, hn⟩
  · rw [if_neg hany]
    constructor
    · unfold liveCount at h0 ⊢
      rw [List.countP_append, h0]
      simp [hyx]
    · exact Nat.le_succ_of_le hn

theorem receiveActor_preserves_added (x : EntityId) (n0 : Nat)
    (y : EntityId) (t : CSReceiver) (h : AddedFresh x n0 t) :
    AddedFresh x n0 (receiveActor y t) := by
  obtain ⟨h1, hg⟩ := h
  unfold receiveActor
  by_cases hany : t.live.any (fun o => o.1 = y) = true
  · rw [if_pos hany]
    exact ⟨h1, hg⟩
  · rw [if_neg hany]
    have hyx : y ≠ x := by
      intro hc
      subst hc
      have := (liveCount_zero_iff_not_any y t).mpr (Bool.eq_false_iff.mpr hany)
      rw [this] at h1
      exact Nat.zero_ne_one h1
    constructor
    · unfold liveCount at h1 ⊢
      rw [List.countP_append, h1]
      simp [hyx]
    · intro o ho hox
      rcases List.mem_append.mp ho with ho | ho
      · exact hg o ho hox
      · have : o = (y, t.nextGen) := by simpa using ho
        rw [this] at hox
        exact absurd hox hyx

theorem foldl_receiveActor_preserves_added (l : List EntityId) :
    ∀ (x : EntityId) (n0 : Nat) (t : CSReceiver), AddedFresh x n0 t →
    AddedFresh x n0 (l.foldl (fun u y => receiveActor y u) t) := by
  induction l with
  | nil => intro x n0 t h; exact h
  | cons y l ih =>
    intro x n0 t h
    rw [List.foldl_cons]
    exact ih x n0 _ (receiveActor_preserves_added x n0 y t h)

theorem foldl_receiveActor_mem_added (l : List EntityId) :
    ∀ (x : EntityId) (n0 : Nat) (t : CSReceiver), x ∈ l → NotYet x n0 t →
    AddedFresh x n0 (l.foldl (fun u y => receiveActor y u) t) := by
  induction l with
  | nil => intro x n0 t h _; exact absurd h (List.not_mem_nil x)
  | cons y l ih =>
    intro x n0 t hmem h
    rw [List.foldl_cons]
    by_cases hxy : x = y
    · subst hxy
      exact foldl_receiveActor_preserves_added l x n0 _
        (receiveActor_self_fresh x n0 t h)
    · exact ih x n0 _ ((List.mem_cons.mp hmem).resolve_left hxy)
        (receiveActor_preserves_notYet x n0 y t (fun hc => hxy hc.symm) h)

theorem foldl_handleActorAuthority_live (l : List (EntityId × Nat)) :
    ∀ t : CSReceiver,
    (l.foldl (fun u op => handleActorAuthority op u) t).live = t.live := by
  induction l with
  | nil => intro t; rfl
  | cons op l ih =>
    intro t
    rw [List.foldl_cons]
    exact ih (handleActorAuthority op t)

theorem leaveCriticalSection_live (s : CSReceiver) :
    (leaveCriticalSection s).live =
      ((s.pendingRemoveEntities.foldl (fun t y => removeActor y t)
          s).pendingAddEntities.foldl (fun u y => receiveActor y u)
        (s.pendingRemoveEntities.foldl (fun t y => removeActor y t) s)).live := by
  unfold leaveCriticalSection
  dsimp only
  rw [foldl_handleActorAuthority_live]

/-- C2: for a critical-section burst whose buffers contain both a
remove-entity and an add-entity operation for the same entity `x`, draining
the section (removals first, then additions, then authority changes) leaves
exactly one local object for `x`, and that object is freshly constructed: its
generation is at least the pre-drain `nextGen`, so it is none of the objects
that existed before the drain.  In particular `x` is neither absent nor
duplicated after the drain. -/
theorem criticalSection_remove_add_final_state
    (s : CSReceiver) (x : EntityId)
    (hin : s.bInCriticalSection = true)
    (hrem : x ∈ s.pendingRemoveEntities)
    (hadd : x ∈ s.pendingAddEntities) :
    liveCount x (leaveCriticalSection s) = 1 ∧
    (∀ o ∈ (leaveCriticalSection s).live, o.1 = x → s.nextGen ≤ o.2) := by
  have hfields := foldl_removeActor_fields s.pendingRemoveEntities s
  have h0 : liveCount x
      (s.pendingRemoveEntities.foldl (fun t y => removeActor y t) s) = 0 :=
    foldl_removeActor_mem s.pendingRemoveEntities x s hrem
  have hnot : NotYet x s.nextGen
      (s.pendingRemoveEntities.foldl (fun t y => removeActor y t) s) :=
    ⟨h0, le_of_eq hfields.2.2.symm⟩
  have hadded := foldl_receiveActor_mem_added
    ((s.pendingRemoveEntities.foldl (fun t y => removeActor y t)
      s).pendingAddEntities) x s.nextGen _
    (by rw [hfields.1]; exact hadd) hnot
  constructor
  · unfold liveCount
    rw [leaveCriticalSection_live]
    exact hadded.1
  · intro o ho hox
    rw [leaveCriticalSection_live] at ho
    exact hadded.2 o ho hox

/-- C2 witness: entity 5, alive with generation 0 before the burst, removed
and re-added within one section; after the drain it exists exactly once with
a fresh generation. -/
theorem criticalSection_remove_add_final_state_witness :
    ((⟨true, [5], [], [], [5], [(5, 0)], 1, []⟩ :
      CSReceiver).bInCriticalSection = true) ∧
    ((5 : EntityId) ∈ (⟨true, [5], [], [], [5], [(5, 0)], 1, []⟩ :
      CSReceiver).pendingRemoveEntities) ∧
    ((5 : EntityId) ∈ (⟨true, [5], [], [], [5], [(5, 0)], 1, []⟩ :
      CSReceiver).pendingAddEntities) ∧
    liveCount 5 (leaveCriticalSection
      ⟨true, [5], [], [], [5], [(5, 0)], 1, []⟩) = 1 ∧
    (∀ o ∈ (leaveCriticalSection
        (⟨true, [5], [], [], [5], [(5, 0)], 1, []⟩ : CSReceiver)).live,
      o.1 = 5 → 1 ≤ o.2) := by
  have hmain := criticalSection_remove_add_final_state
    ⟨true, [5], [], [], [5], [(5, 0)], 1, []⟩ 5 rfl (by decide) (by decide)
  exact ⟨rfl, by decide, by decide, hmain.1, hmain.2⟩

/-! ## Reference registry and update resolver (spec §4.3,
`IncomingRefsMap` / `UnresolvedRefsMap` / `ResolvePendingOperations` of
`SpatialReceiver.h` lines 221-223, 286-291)

The receiver implementation is absent from this excerpt; the resolution
engine is modelled from spec §4.3 over the header's map shapes.  A
`ChannelObjectPair` is abstracted to an id with a liveness flag (its weak
handles); an `FObjectReferences` tree is abstracted, per structural position,
to its set of unresolved refs, which is what drives the maps. -/

abbrev Pair := Nat

/-- Written property-update effects of a resolution: a property write of the
resolved object into a position, the matching replication "changed"
notification, and the "fully resolved" notification that releases queued
RPCs. -/
inductive REffect where
  | write (p : Pair) (pos : Nat) : REffect
  | repNotify (p : Pair) (pos : Nat) : REffect
  | fullyResolved (p : Pair) : REffect
deriving DecidableEq, Repr

/-- Modelled from the spec: receiver state for reference resolution.
`incomingRefs` is `IncomingRefsMap` (ref → subscribed pairs; absent key =
`[]`), `unresolvedRefs` is `UnresolvedRefsMap` (pair → positions with their
unresolved-ref sets; absent key = `[]`), `alive` tracks whether the pair's
weak channel/object handles still resolve, and `rpcs` is the RPC queue the
"fully resolved" replay feeds. -/
@[ext]
structure Receiver where
  incomingRefs : ObjectRef → List Pair
  unresolvedRefs : Pair → List (Nat × Finset ObjectRef)
  alive : Pair → Bool
  rpcs : RpcQueue

def emptyReceiver : Receiver :=
  ⟨fun _ => [], fun _ => [], fun _ => true, emptyQueue⟩

/-- Modelled from the spec: re-application of a resolved ref to one pair's
tracked positions: each position loses `r` from its unresolved set; positions
whose set empties are resolved and removed. -/
def applyRefToEntry (r : ObjectRef) (entry : List (Nat × Finset ObjectRef)) :
    List (Nat × Finset ObjectRef) :=
  entry.filterMap fun pr =>
    if pr.2.erase r = ∅ then none else some (pr.1, pr.2.erase r)

/-- Write and changed-notification effects re-applying `r` emits for one
pair: one write and one notification per position that depended on `r`. -/
def pairWriteEffects (r : ObjectRef) (p : Pair)
    (entry : List (Nat × Finset ObjectRef)) : List REffect :=
  (entry.filter (fun pr => decide (r ∈ pr.2))).foldr
    (fun pr acc => REffect.write p pr.1 :: REffect.repNotify p pr.1 :: acc) []

/-- Modelled from the spec §4.3 `resolve`, per subscribed pair: re-apply the
pair's buffered reference sets; if no unresolved reference remains, remove the
pair from all maps and emit the fully-resolved notification. -/
def resolvePairStep (r : ObjectRef) (acc : Receiver × List REffect)
    (p : Pair) : Receiver × List REffect :=
  let s := acc.1
  let entry := s.unresolvedRefs p
  let entry2 := applyRefToEntry r entry
  let effs := pairWriteEffects r p entry
  if entry2 = [] then
    ({ s with unresolvedRefs := fun q => if q = p then [] else s.unresolvedRefs q
              incomingRefs := fun v => (s.incomingRefs v).erase p },
      acc.2 ++ effs ++ [REffect.fullyResolved p])
  else
    ({ s with unresolvedRefs :=
        fun q => if q = p then entry2 else s.unresolvedRefs q },
      acc.2 ++ effs)

/-- Modelled from the spec §4.3 `resolve` (`ResolveIncomingOperations`):
process every pair subscribed to `r`, then remove `r`'s own entry from
`IncomingRefsMap`. -/
def resolveIncomingOperations (r : ObjectRef) (s : Receiver) :
    Receiver × List REffect :=
  let res := (s.incomingRefs r).foldl (resolvePairStep r) (s, [])
  ({ res.1 with incomingRefs :=
      fun v => if v = r then [] else res.1.incomingRefs v }, res.2)

/-- Modelled from the spec (`ResolvePendingOperations_Internal`): resolve
buffered property updates for `r`, then replay RPCs queued on `r`. -/
def resolvePendingOperations (r : ObjectRef) (s : Receiver) :
    Receiver × List REffect :=
  let res := resolveIncomingOperations r s
  ({ res.1 with rpcs := resolveIncomingRPCs r res.1.rpcs }, res.2)

/-- Modelled from the spec §4.3 `applyUpdate` (`QueueIncomingRepUpdates`):
store the pair's recomputed reference sets and register the pair in
`IncomingRefsMap` under exactly the refs it now depends on (positions that
resolved are removed eagerly). -/
def queueIncomingRepUpdates (p : Pair)
    (entry : List (Nat × Finset ObjectRef)) (s : Receiver) : Receiver :=
  { s with
    unresolvedRefs := fun q => if q = p then entry else s.unresolvedRefs q
    incomingRefs := fun r =>
      if entry.any (fun pr => decide (r ∈ pr.2)) then
        (if p ∈ s.incomingRefs r then s.incomingRefs r
          else s.incomingRefs r ++ [p])
      else (s.incomingRefs r).erase p }

/-- Destruction of the pair's owning channel or actor.  Per the header's open
TODO (SpatialReceiver.h line 286, "Figure out how to remove entries when
Channel/Actor gets deleted - UNR:100") and spec §5's lazy-cancellation rule,
deletion only invalidates the weak handles; no map entry is removed. -/
def destroyPair (p : Pair) (s : Receiver) : Receiver :=
  { s with alive := fun q => if q = p then false else s.alive q }

theorem resolveIncomingOperations_incomingRefs_self (r : ObjectRef)
    (s : Receiver) :
    (resolveIncomingOperations r s).1.incomingRefs r = [] := by
  unfold resolveIncomingOperations
  simp

theorem resolveIncomingOperations_of_empty (r : ObjectRef) (s : Receiver)
    (h : s.incomingRefs r = []) :
    resolveIncomingOperations r s = (s, []) := by
  unfold resolveIncomingOperations
  rw [h]
  dsimp only [List.foldl_nil]
  have hfun : (fun v => if v = r then [] else s.incomingRefs v) =
      s.incomingRefs := by
    funext v
    by_cases hv : v = r
    · rw [hv, if_pos rfl, h]
    · rw [if_neg hv]
  rw [hfun]

theorem resolveIncomingRPCs_index_self (r : ObjectRef) (q : RpcQueue) :
    (resolveIncomingRPCs r q).index r = [] := by
  unfold resolveIncomingRPCs
  simp

theorem resolveIncomingRPCs_of_empty (r : ObjectRef) (q : RpcQueue)
    (h : q.index r = []) : resolveIncomingRPCs r q = q := by
  unfold resolveIncomingRPCs
  rw [h]
  dsimp only [List.foldl_nil]
  have hfun : (fun v => if v = r then [] else q.index v) = q.index := by
    funext v
    by_cases hv : v = r
    · rw [hv, if_pos rfl, h]
    · rw [if_neg hv]
  rw [hfun]

theorem resolvePendingOperations_incomingRefs_self (r : ObjectRef)
    (s : Receiver) :
    (resolvePendingOperations r s).1.incomingRefs r = [] := by
  unfold resolvePendingOperations
  dsimp only
  exact resolveIncomingOperations_incomingRefs_self r s

theorem resolvePendingOperations_index_self (r : ObjectRef) (s : Receiver) :
    (resolvePendingOperations r s).1.rpcs.index r = [] := by
  unfold resolvePendingOperations
  dsimp only
  exact resolveIncomingRPCs_index_self r _

/-- C3: resolving the same ObjectRef a second time, with no new dependency on
it registered in between, is a complete no-op: the state (all maps, the RPC
queue and its dispatch logs) is unchanged and no write, change notification or
fully-resolved notification is emitted.  The resolution of `r` removes `r`'s
entries from `IncomingRefsMap` and `IncomingRPCMap`, so the second call finds
no subscriber and no queued invocation. -/
theorem resolvePendingOperations_idempotent (r : ObjectRef) (s : Receiver) :
    resolvePendingOperations r (resolvePendingOperations r s).1 =
      ((resolvePendingOperations r s).1, []) := by
  have h1 : (resolvePendingOperations r s).1.incomingRefs r = [] :=
    resolvePendingOperations_incomingRefs_self r s
  have h2 : (resolvePendingOperations r s).1.rpcs.index r = [] :=
    resolvePendingOperations_index_self r s
  generalize hgen : (resolvePendingOperations r s).1 = s1 at h1 h2 ⊢
  unfold resolvePendingOperations
  rw [resolveIncomingOperations_of_empty r s1 h1]
  dsimp only
  rw [resolveIncomingRPCs_of_empty r s1.rpcs h2]

theorem mem_applyRefToEntry (r : ObjectRef)
    (entry : List (Nat × Finset ObjectRef)) (u : Nat × Finset ObjectRef) :
    u ∈ applyRefToEntry r entry ↔
      ∃ pr ∈ entry, ¬pr.2.erase r = ∅ ∧ u = (pr.1, pr.2.erase r) := by
  unfold applyRefToEntry
  rw [List.mem_filterMap]
  constructor
  · rintro ⟨pr, hpr, hf⟩
    by_cases h : pr.2.erase r = ∅
    · rw [if_pos h] at hf
      exact absurd hf (by simp)
    · rw [if_neg h] at hf
      exact ⟨pr, hpr, h, (Option.some.inj hf).symm⟩
  · rintro ⟨pr, hpr, h, rfl⟩
    exact ⟨pr, hpr, by rw [if_neg h]⟩

theorem not_mem_self_applyRefToEntry (r : ObjectRef)
    (entry : List (Nat × Finset ObjectRef)) :
    ∀ u ∈ applyRefToEntry r entry, r ∉ u.2 := by
  intro u hu
  rcases (mem_applyRefToEntry r entry u).mp hu with ⟨pr, _, _, rfl⟩
  exact Finset.not_mem_erase r pr.2

theorem exists_applyRefToEntry (r v : ObjectRef)
    (entry : List (Nat × Finset ObjectRef)) (hne : v ≠ r) :
    (∃ u ∈ applyRefToEntry r entry, v ∈ u.2) ↔ ∃ pr ∈ entry, v ∈ pr.2 := by
  constructor
  · rintro ⟨u, hu, hv⟩
    rcases (mem_applyRefToEntry r entry u).mp hu with ⟨pr, hpr, _, rfl⟩
    exact ⟨pr, hpr, (Finset.mem_erase.mp hv).2⟩
  · rintro ⟨pr, hpr, hv⟩
    have hne2 : ¬pr.2.erase r = ∅ := by
      intro hc
      have hvm : v ∈ pr.2.erase r := Finset.mem_erase.mpr ⟨hne, hv⟩
      rw [hc] at hvm
      exact Finset.not_mem_empty v hvm
    exact ⟨(pr.1, pr.2.erase r),
      (mem_applyRefToEntry r entry _).mpr ⟨pr, hpr, hne2, rfl⟩,
      Finset.mem_erase.mpr ⟨hne, hv⟩⟩

theorem applyRefToEntry_eq_nil (r : ObjectRef)
    (entry : List (Nat × Finset ObjectRef)) :
    applyRefToEntry r entry = [] ↔ ∀ pr ∈ entry, pr.2.erase r = ∅ := by
  unfold applyRefToEntry
  rw [List.filterMap_eq_nil_iff]
  constructor
  · intro h pr hpr
    have hf := h pr hpr
    by_cases hc : pr.2.erase r = ∅
    · exact hc
    · rw [if_neg hc] at hf
      exact absurd hf (by simp)
  · intro h pr hpr
    rw [if_pos (h pr hpr)]

theorem mem_foldl_erase (es : List Pair) :
    ∀ (l : List Pair) (p : Pair), l.Nodup →
    (p ∈ es.foldl (fun acc x => acc.erase x) l ↔ p ∈ l ∧ p ∉ es) := by
  induction es with
  | nil =>
    intro l p _
    simp
  | cons e es ih =>
    intro l p hnd
    rw [List.foldl_cons, ih (l.erase e) p (hnd.erase e),
      List.Nodup.mem_erase_iff hnd]
    constructor
    · rintro ⟨⟨hne, hl⟩, hnes⟩
      refine ⟨hl, ?_⟩
      intro hc
      rcases List.mem_cons.mp hc with hc | hc
      · exact hne hc
      · exact hnes hc
    · rintro ⟨hl, hnmem⟩
      exact ⟨⟨fun hc => hnmem (hc ▸ List.mem_cons_self e es), hl⟩,
        fun hc => hnmem (List.mem_cons_of_mem e hc)⟩

theorem nodup_foldl_erase (es : List Pair) :
    ∀ l : List Pair, l.Nodup →
    (es.foldl (fun acc x => acc.erase x) l).Nodup := by
  induction es with
  | nil => intro l h; exact h
  | cons e es ih =>
    intro l h
    rw [List.foldl_cons]
    exact ih (l.erase e) (h.erase e)

theorem resolvePairStep_unresolvedRefs (r : ObjectRef)
    (b : Receiver × List REffect) (a q : Pair) :
    (resolvePairStep r b a).1.unresolvedRefs q =
      if q = a then applyRefToEntry r (b.1.unresolvedRefs a)
      else b.1.unresolvedRefs q := by
  unfold resolvePairStep
  by_cases h : applyRefToEntry r (b.1.unresolvedRefs a) = [] <;>
    by_cases hq : q = a <;> simp [h, hq]

theorem resolvePairStep_incomingRefs (r : ObjectRef)
    (b : Receiver × List REffect) (a : Pair) (v : ObjectRef) :
    (resolvePairStep r b a).1.incomingRefs v =
      if applyRefToEntry r (b.1.unresolvedRefs a) = [] then
        (b.1.incomingRefs v).erase a
      else b.1.incomingRefs v := by
  unfold resolvePairStep
  by_cases h : applyRefToEntry r (b.1.unresolvedRefs a) = [] <;> simp [h]

theorem resolvePairStep_alive (r : ObjectRef)
    (b : Receiver × List REffect) (a : Pair) :
    (resolvePairStep r b a).1.alive = b.1.alive := by
  unfold resolvePairStep
  by_cases h : applyRefToEntry r (b.1.unresolvedRefs a) = [] <;> simp [h]

theorem resolvePairStep_rpcs (r : ObjectRef)
    (b : Receiver × List REffect) (a : Pair) :
    (resolvePairStep r b a).1.rpcs = b.1.rpcs := by
  unfold resolvePairStep
  by_cases h : applyRefToEntry r (b.1.unresolvedRefs a) = [] <;> simp [h]

theorem resolvePairs_foldl_char (r : ObjectRef) (ps : List Pair) :
    ∀ b : Receiver × List REffect, ps.Nodup →
    ((∀ q, (ps.foldl (resolvePairStep r) b).1.unresolvedRefs q =
        (if q ∈ ps then applyRefToEntry r (b.1.unresolvedRefs q)
          else b.1.unresolvedRefs q)) ∧
      (∀ v, (ps.foldl (resolvePairStep r) b).1.incomingRefs v =
        (ps.filter (fun x =>
            decide (applyRefToEntry r (b.1.unresolvedRefs x) = []))).foldl
          (fun acc x => acc.erase x) (b.1.incomingRefs v)) ∧
      (ps.foldl (resolvePairStep r) b).1.alive = b.1.alive ∧
      (ps.foldl (resolvePairStep r) b).1.rpcs = b.1.rpcs) := by
  induction ps with
  | nil =>
    intro b _
    refine ⟨fun q => ?_, fun v => rfl, rfl, rfl⟩
    rw [if_neg (List.not_mem_nil q)]
    rfl
  | cons a ps ih =>
    intro b hnd
    have hna : a ∉ ps := (List.nodup_cons.mp hnd).1
    rw [List.foldl_cons]
    obtain ⟨ih1, ih2, ih3, ih4⟩ := ih (resolvePairStep r b a)
      (List.nodup_cons.mp hnd).2
    refine ⟨fun q => ?_, fun v => ?_, ?_, ?_⟩
    · rw [ih1 q, resolvePairStep_unresolvedRefs]
      by_cases hq : q ∈ ps
      · have hqa : ¬q = a := fun hc => hna (hc ▸ hq)
        rw [if_pos hq, if_pos (List.mem_cons_of_mem a hq), if_neg hqa]
      · rw [if_neg hq]
        by_cases hqa : q = a
        · rw [if_pos hqa, if_pos (by rw [hqa]; exact List.mem_cons_self a ps),
            hqa]
        · rw [if_neg hqa, if_neg (fun hc => (List.mem_cons.mp hc).elim hqa hq)]
    · rw [ih2 v, resolvePairStep_incomingRefs]
      have hfcongr : ps.filter (fun x =>
          decide (applyRefToEntry r ((resolvePairStep r b a).1.unresolvedRefs x)
            = [])) =
          ps.filter (fun x =>
          decide (applyRefToEntry r (b.1.unresolvedRefs x) = [])) :=
        List.filter_congr (fun x hx => by
          rw [resolvePairStep_unresolvedRefs,
            if_neg (fun hc : x = a => hna (hc ▸ hx))])
      rw [hfcongr, List.filter_cons]
      by_cases ha : applyRefToEntry r (b.1.unresolvedRefs a) = [] <;>
        simp [ha, List.foldl_cons]
    · rw [ih3, resolvePairStep_alive]
    · rw [ih4, resolvePairStep_rpcs]

/-- Invariant of the reference registry (spec §3, `IncomingRefsMap`):
subscriber lists are duplicate-free, and a pair appears as a subscriber under
a ref exactly while one of its tracked positions still holds that ref
unresolved. -/
def WF (s : Receiver) : Prop :=
  (∀ v, (s.incomingRefs v).Nodup) ∧
  (∀ v p, p ∈ s.incomingRefs v ↔ ∃ pr ∈ s.unresolvedRefs p, v ∈ pr.2)

theorem WF_emptyReceiver : WF emptyReceiver := by
  constructor
  · intro v
    exact List.nodup_nil
  · intro v p
    simp [emptyReceiver]

theorem WF_queueIncomingRepUpdates (p : Pair)
    (entry : List (Nat × Finset ObjectRef)) (s : Receiver) (hwf : WF s) :
    WF (queueIncomingRepUpdates p entry s) := by
  obtain ⟨hnd, hiff⟩ := hwf
  unfold queueIncomingRepUpdates
  constructor
  · intro v
    dsimp only
    by_cases hc : entry.any (fun pr => decide (v ∈ pr.2)) = true
    · rw [if_pos hc]
      by_cases hp : p ∈ s.incomingRefs v
      · rw [if_pos hp]
        exact hnd v
      · rw [if_neg hp]
        refine List.nodup_append.mpr ⟨hnd v, List.nodup_singleton p, ?_⟩
        intro x hx hx'
        rw [List.mem_singleton] at hx'
        subst hx'
        exact hp hx
    · rw [if_neg hc]
      exact (hnd v).erase p
  · intro v q
    dsimp only
    by_cases hq : q = p
    · subst hq
      rw [if_pos rfl]
      by_cases hc : entry.any (fun pr => decide (v ∈ pr.2)) = true
      · rw [if_pos hc]
        have hrhs : ∃ pr ∈ entry, v ∈ pr.2 := by
          rcases List.any_eq_true.mp hc with ⟨pr, hpr, hd⟩
          exact ⟨pr, hpr, of_decide_eq_true hd⟩
        have hlhs : q ∈ (if q ∈ s.incomingRefs v then s.incomingRefs v
            else s.incomingRefs v ++ [q]) := by
          by_cases hp : q ∈ s.incomingRefs v
          · rwa [if_pos hp]
          · rw [if_neg hp]
            exact List.mem_append.mpr (Or.inr (List.mem_singleton.mpr rfl))
        exact iff_of_true hlhs hrhs
      · rw [if_neg hc]
        refine iff_of_false ?_ ?_
        · intro h
          exact ((List.Nodup.mem_erase_iff (hnd v)).mp h).1 rfl
        · rintro ⟨pr, hpr, hv⟩
          exact hc (List.any_eq_true.mpr ⟨pr, hpr, decide_eq_true hv⟩)
    · rw [if_neg hq]
      have hstep : q ∈ (if entry.any (fun pr => decide (v ∈ pr.2)) then
          (if p ∈ s.incomingRefs v then s.incomingRefs v
            else s.incomingRefs v ++ [p])
          else (s.incomingRefs v).erase p) ↔ q ∈ s.incomingRefs v := by
        by_cases hc : entry.any (fun pr => decide (v ∈ pr.2)) = true
        · rw [if_pos hc]
          by_cases hp : p ∈ s.incomingRefs v
          · rw [if_pos hp]
          · rw [if_neg hp, List.mem_append, List.mem_singleton]
            constructor
            · rintro (h | h)
              · exact h
              · exact absurd h hq
            · exact Or.inl
        · rw [if_neg hc]
          exact List.mem_erase_of_ne hq
      rw [hstep]
      exact hiff v q

theorem WF_resolvePendingOperations (r : ObjectRef) (s : Receiver)
    (hwf : WF s) : WF (resolvePendingOperations r s).1 := by
  obtain ⟨hnd, hiff⟩ := hwf
  obtain ⟨hU, hI, _, _⟩ :=
    resolvePairs_foldl_char r (s.incomingRefs r) (s, []) (hnd r)
  dsimp only at hU hI
  have hinc : ∀ v, (resolvePendingOperations r s).1.incomingRefs v =
      (if v = r then [] else
        ((s.incomingRefs r).foldl (resolvePairStep r)
          (s, [])).1.incomingRefs v) := fun v => rfl
  have hunr : ∀ q, (resolvePendingOperations r s).1.unresolvedRefs q =
      ((s.incomingRefs r).foldl (resolvePairStep r)
        (s, [])).1.unresolvedRefs q := fun q => rfl
  constructor
  · intro v
    rw [hinc v]
    by_cases hv : v = r
    · rw [if_pos hv]
      exact List.nodup_nil
    · rw [if_neg hv, hI v]
      exact nodup_foldl_erase _ _ (hnd v)
  · intro v q
    rw [hinc v, hunr q, hU q]
    by_cases hv : v = r
    · rw [if_pos hv]
      subst hv
      refine iff_of_false (List.not_mem_nil q) ?_
      intro hrhs
      by_cases hq : q ∈ s.incomingRefs v
      · rw [if_pos hq] at hrhs
        rcases hrhs with ⟨pr, hpr, hvpr⟩
        exact not_mem_self_applyRefToEntry v _ pr hpr hvpr
      · rw [if_neg hq] at hrhs
        exact hq ((hiff v q).mpr hrhs)
    · rw [if_neg hv, hI v, mem_foldl_erase _ _ _ (hnd v)]
      by_cases hq : q ∈ s.incomingRefs r
      · rw [if_pos hq]
        by_cases hemp : applyRefToEntry r (s.unresolvedRefs q) = []
        · refine iff_of_false ?_ ?_
          · rintro ⟨_, hnotin⟩
            exact hnotin (List.mem_filter.mpr ⟨hq, decide_eq_true hemp⟩)
          · rintro ⟨pr, hpr, _⟩
            rw [hemp] at hpr
            exact List.not_mem_nil pr hpr
        · rw [exists_applyRefToEntry r v _ hv, ← hiff v q]
          constructor
          · rintro ⟨h, _⟩
            exact h
          · intro h
            refine ⟨h, ?_⟩
            intro hc
            exact hemp (of_decide_eq_true (List.mem_filter.mp hc).2)
      · rw [if_neg hq, ← hiff v q]
        constructor
        · rintro ⟨h, _⟩
          exact h
        · intro h
          refine ⟨h, ?_⟩
          intro hc
          exact hq (List.mem_filter.mp hc).1

/-- C4 counterexample: the claim that registry entries are removed "including
when the owning channel or actor is deleted" is false.  Register pair 0 as
depending on ref (1,0); destroy its channel/actor.  The pair's weak handles
are dead, yet it still appears as a subscriber under (1,0) and its
unresolved-refs entry is still present — per the header's open TODO
(SpatialReceiver.h line 286, UNR:100) no cleanup happens on channel/actor
deletion. -/
theorem channelDeletion_keeps_registry_entry :
    (destroyPair 0 (queueIncomingRepUpdates 0 [(0, {(1, 0)})]
      emptyReceiver)).alive 0 = false ∧
    (destroyPair 0 (queueIncomingRepUpdates 0 [(0, {(1, 0)})]
      emptyReceiver)).incomingRefs (1, 0) = [0] ∧
    (destroyPair 0 (queueIncomingRepUpdates 0 [(0, {(1, 0)})]
      emptyReceiver)).unresolvedRefs 0 = [(0, {(1, 0)})] := by
  refine ⟨rfl, ?_, rfl⟩
  show (queueIncomingRepUpdates 0 [(0, {(1, 0)})]
    emptyReceiver).incomingRefs (1, 0) = [0]
  unfold queueIncomingRepUpdates emptyReceiver
  simp

/-- C4 (amended): the registry invariant — a ChannelObjectPair appears as a
subscriber under an ObjectRef exactly while it still has an unresolved
dependency on that ref, entries being added/removed eagerly by update
application and by resolution (resolving `r` clears `r`'s entry entirely) —
is preserved by `applyUpdate` registration and by `resolve`; but
channel/actor deletion removes nothing: it only invalidates the weak handles
and leaves all registry entries in place (header TODO UNR:100; spec §5 calls
this lazy cancellation). -/
theorem referenceRegistry_invariant_maintenance
    (s : Receiver) (p : Pair) (entry : List (Nat × Finset ObjectRef))
    (r : ObjectRef) (hwf : WF s) :
    WF (queueIncomingRepUpdates p entry s) ∧
    WF (resolvePendingOperations r s).1 ∧
    (resolvePendingOperations r s).1.incomingRefs r = [] ∧
    (destroyPair p s).incomingRefs = s.incomingRefs ∧
    (destroyPair p s).unresolvedRefs = s.unresolvedRefs ∧
    (destroyPair p s).alive p = false :=
  ⟨WF_queueIncomingRepUpdates p entry s hwf,
    WF_resolvePendingOperations r s hwf,
    resolvePendingOperations_incomingRefs_self r s,
    rfl, rfl, by simp [destroyPair]⟩

/-- C4 witness: the maintained invariant holds starting from the empty
registry. -/
theorem referenceRegistry_invariant_maintenance_witness :
    WF emptyReceiver ∧
    WF (queueIncomingRepUpdates 0 [(0, {(1, 0)})] emptyReceiver) ∧
    WF (resolvePendingOperations (1, 0) emptyReceiver).1 ∧
    (resolvePendingOperations (1, 0) emptyReceiver).1.incomingRefs (1, 0) = [] ∧
    (destroyPair 0 emptyReceiver).incomingRefs = emptyReceiver.incomingRefs ∧
    (destroyPair 0 emptyReceiver).alive 0 = false := by
  have hmain := referenceRegistry_invariant_maintenance emptyReceiver 0
    [(0, {(1, 0)})] (1, 0) WF_emptyReceiver
  exact ⟨WF_emptyReceiver, hmain.1, hmain.2.1, hmain.2.2.1, hmain.2.2.2.1,
    hmain.2.2.2.2.2⟩

end SpatialGDK
